import Mathlib

/-!
# Shallow embedding of the echat timeline synchronization engine

This file embeds the event-aggregation core of the `echat` repository
(`src/clients/mod.rs`, `src/clients/matrix.rs`, `src/clients/telegram.rs`)
as executable Lean definitions and proves properties about them.

Provider network calls are modelled by passing their results (or the
provider data) as explicit arguments; a Rust `Result` is an `Except`,
a possible panic is an `Option` whose `none` models the abort, and the
`HashSet<String>` of processed event ids is a `List String` with
membership checks before insertion (exactly mirroring the
`contains`/`insert` pattern of the source).
-/

namespace EChat

/-- Type `EventKind` from `src/clients/mod.rs`: currently only text messages. -/
inductive EventKind : Type where
  | Message (text : String)
deriving DecidableEq, Repr

/-- Type `Event` from `src/clients/mod.rs`. -/
structure Event : Type where
  id : String
  timestamp : Nat
  kind : EventKind
deriving DecidableEq, Repr

/-- Type `EventGroup` from `src/clients/mod.rs`.  Avatar bytes are a `List Nat`. -/
structure EventGroup : Type where
  user_id : String
  display_name : String
  avatar : Option (List Nat)
  events : List Event
  from_self : Bool
deriving DecidableEq, Repr

end EChat

namespace Matrix

open EChat

/-- The content of a message-like Matrix event, as matched by
`process_timeline_events`: `AnyMessageLikeEventContent::Message`,
`AnyMessageLikeEventContent::RoomMessage`, or anything else (the `_`
arm of the `match`, which is skipped). -/
inductive MsgContent : Type where
  | Message (text : String)
  | RoomMessage (body : String)
  | Other
deriving DecidableEq, Repr

/-- A raw event of a sync/pagination chunk (`AnySyncTimelineEvent`):
either message-like, carrying the fields `process_timeline_events`
reads, or a state event (skipped by the `if let` in the source).
The content is `Option MsgContent`, mirroring `msg.original_content()`. -/
inductive AnySyncTimelineEvent : Type where
  | MessageLike (event_id : String) (sender : String) (origin_server_ts : Nat)
      (content : Option MsgContent)
  | State
deriving DecidableEq, Repr

/-- Profile data `room.get_member` can return for a sender. -/
structure MemberInfo : Type where
  display_name : Option String
  avatar : Option (List Nat)
deriving DecidableEq, Repr

/-- A Matrix room, reduced to what `process_timeline_events` consults:
the member table used by `room.get_member`. -/
structure Room : Type where
  members : List (String × MemberInfo)
deriving DecidableEq, Repr

/-- Lookup `room.get_member(sender)`: first member entry with the given id. -/
def Room.get_member (room : Room) (sender : String) : Option MemberInfo :=
  (room.members.find? (fun p => p.1 = sender)).map Prod.snd

/-- Type `Messages` (matrix-sdk): the slice of fields the engine reads. -/
structure Messages : Type where
  chunk : List AnySyncTimelineEvent
  start : String
  stop : Option String
deriving DecidableEq, Repr

/-- The extraction of an `EventKind` from `msg.original_content()`:
`Message`/`RoomMessage` become `EventKind::Message`, everything else
(including `None`) hits the `_ => continue` arm, modelled as `none`. -/
def contentToKind : Option MsgContent → Option EventKind
  | some (.Message text) => some (.Message text)
  | some (.RoomMessage body) => some (.Message body)
  | _ => none

/-- Loop state of `process_timeline_events`: the dedup set
`processed_events`, the `current_group`, and the `new_groups` list. -/
structure Acc : Type where
  processed : List String
  current : Option EventGroup
  newGroups : List EventGroup
deriving DecidableEq, Repr

/-- One iteration of the `for event in timeline.chunk.iter().rev()` loop
of `MatrixClient::process_timeline_events`. -/
def processEvent (selfId : String) (room : Room) (acc : Acc)
    (ev : AnySyncTimelineEvent) : Acc :=
  match ev with
  | .State => acc
  | .MessageLike event_id sender ts content =>
    if event_id ∈ acc.processed then acc
    else
      let processed := event_id :: acc.processed
      let member := room.get_member sender
      let display_name := (member.bind MemberInfo.display_name).getD sender
      let avatar := member.bind MemberInfo.avatar
      match contentToKind content with
      | none => { acc with processed := processed }
      | some kind =>
        let event : Event := ⟨event_id, ts, kind⟩
        match acc.current with
        | some group =>
          if group.user_id = sender then
            { acc with processed := processed,
                       current := some { group with events := group.events ++ [event] } }
          else
            { acc with processed := processed,
                       newGroups := acc.newGroups ++ [group],
                       current := some ⟨sender, display_name, avatar, [event],
                                        sender == selfId⟩ }
        | none =>
          { acc with processed := processed,
                     current := some ⟨sender, display_name, avatar, [event],
                                      sender == selfId⟩ }

/-- The loop of `process_timeline_events` over the reversed chunk,
ending with `new_groups.push(current_group)` for the final group. -/
def newGroupsOf (selfId : String) (room : Room)
    (chunk : List AnySyncTimelineEvent) (processed : List String) : Acc :=
  chunk.reverse.foldl (processEvent selfId room) ⟨processed, none, []⟩

/-- Function `MatrixClient::process_timeline_events`: folds a raw chunk into
event groups.  Returns the updated `(event_groups, processed_events)`.
`prepend = true` reverses the new groups and inserts each at index 0;
`prepend = false` extends the list at the tail. -/
def process_timeline_events (selfId : String) (room : Room)
    (timeline : Messages) (prepend : Bool)
    (event_groups : List EventGroup) (processed : List String) :
    List EventGroup × List String :=
  let acc := newGroupsOf selfId room timeline.chunk processed
  let newGroups := acc.newGroups ++ acc.current.toList
  let groups :=
    if prepend then
      newGroups.reverse.foldl (fun gs g => g :: gs) event_groups
    else
      event_groups ++ newGroups
  (groups, acc.processed)

/-- The mutable fields of `MatrixClient` that the verified operations
touch: `sync_token`, `event_groups`, `selected_room` (by room id),
`pagination_token` and `processed_events`. -/
structure State : Type where
  sync_token : Option String
  event_groups : List EventGroup
  selected_room : Option String
  pagination_token : Option String
  processed_events : List String
deriving DecidableEq, Repr

/-- The per-room part of a Matrix sync response
(the `timeline` of `response.rooms.join`): the events and `prev_batch`. -/
structure RoomSyncInfo : Type where
  room_id : String
  events : List AnySyncTimelineEvent
  prev_batch : Option String
deriving DecidableEq, Repr

/-- The slice of a sync response `MatrixClient::sync` reads:
`next_batch` and the timelines of the joined rooms. -/
structure SyncResponse : Type where
  next_batch : String
  rooms_join : List RoomSyncInfo
deriving DecidableEq, Repr

/-- The `for (room_id, room_info) in response.rooms.join` loop of
`MatrixClient::sync`: each room is looked up with `get_room` (a missing
room aborts with an error, after earlier rooms were already processed)
and its timeline is fed to `process_timeline_events` with
`prepend = false`. -/
def syncRooms (selfId : String) (getRoom : String → Option Room) :
    List RoomSyncInfo → State → State × Except String Unit
  | [], st => (st, .ok ())
  | info :: rest, st =>
    match getRoom info.room_id with
    | none => (st, .error ("Комната не найдена: " ++ info.room_id))
    | some room =>
      let r := process_timeline_events selfId room
        ⟨info.events, info.prev_batch.getD "", info.prev_batch⟩ false
        st.event_groups st.processed_events
      syncRooms selfId getRoom rest
        { st with event_groups := r.1, processed_events := r.2 }

/-- Function `MatrixClient::sync`.  The provider call `client.sync_once` is
modelled by its result `resp`; on error the function returns before any
mutation, on success `sync_token` is replaced by `next_batch` and every
joined room's timeline is processed in append mode. -/
def sync (selfId : String) (getRoom : String → Option Room)
    (resp : Except String SyncResponse) (st : State) :
    State × Except String Unit :=
  match resp with
  | .error e => (st, .error e)
  | .ok response =>
    let st := { st with sync_token := some response.next_batch }
    syncRooms selfId getRoom response.rooms_join st

/-- The provider interactions of one `MatrixClient::select_chat` call:
the result of `RoomId::parse(chat_id)`, of `client.get_room`, and of
the initial `room.messages(options)` fetch. -/
structure SelectInput : Type where
  parsed : Except String String
  room : Option Room
  fetch : Except String Messages
deriving Repr

/-- Function `MatrixClient::select_chat`: parse the id and find the room (both
before any mutation), then clear `event_groups`, `pagination_token` and
`processed_events`, run the initial backward fetch (limit 20), process
it with `prepend = true`, and finally set `pagination_token` to the
end token of the fetch and `selected_room` to the room. -/
def select_chat (selfId : String) (inp : SelectInput) (st : State) :
    State × Except String Unit :=
  match inp.parsed with
  | .error e => (st, .error e)
  | .ok room_id =>
    match inp.room with
    | none => (st, .error ("Комната не найдена: " ++ room_id))
    | some room =>
      let st1 := { st with event_groups := [], pagination_token := none,
                           processed_events := [] }
      match inp.fetch with
      | .error e => (st1, .error e)
      | .ok timeline =>
        let r := process_timeline_events selfId room timeline true
          st1.event_groups st1.processed_events
        ({ st1 with event_groups := r.1, processed_events := r.2,
                    pagination_token := timeline.stop,
                    selected_room := some room_id }, .ok ())

/-- Function `MatrixClient::delete_event`: the body is literally `Ok(())` (a
placeholder).  The middle component lists the provider requests the
call issues — there are none. -/
def delete_event (st : State) (_message_id : String) :
    State × List (String × String) × Except String Unit :=
  (st, [], .ok ())

/-- The timestamp of a message-like chunk entry (state events carry
none that the engine reads). -/
def tsOfMsg : AnySyncTimelineEvent → Option Nat
  | .MessageLike _ _ ts _ => some ts
  | .State => none

/-- The timestamps of the message-like events of a chunk, in delivered
order. -/
def msgTimestamps (l : List AnySyncTimelineEvent) : List Nat :=
  l.filterMap tsOfMsg

end Matrix

namespace EChat

/-- The per-group ordering invariant of the spec: the events of a group are
in chronological order, oldest first (non-decreasing timestamps). -/
def eventsOldestFirst (g : EventGroup) : Prop :=
  List.Chain' (fun a b => a.timestamp ≤ b.timestamp) g.events

end EChat

namespace Telegram

open EChat

/-- The sender of a Telegram message (`message.sender()`), reduced to
the `id()` and `name()` the engine reads. -/
structure Sender : Type where
  id : Int
  name : String
deriving DecidableEq, Repr

/-- A Telegram message, reduced to the fields `process_message` reads:
`id()`, `outgoing()`, `sender()` (possibly absent), `date()` and
`text()`. -/
structure TMessage : Type where
  id : Int
  outgoing : Bool
  sender : Option Sender
  date : Nat
  text : String
deriving DecidableEq, Repr

/-- The mutable fields of `TelegramClient` the verified operations
touch: `event_groups`, `selected_chat`, `processed_events` and
`user_id`. -/
structure State : Type where
  event_groups : List EventGroup
  selected_chat : Option String
  processed_events : List String
  user_id : String
deriving DecidableEq, Repr

/-- The `for group in event_groups.iter_mut()` search of
`TelegramClient::process_message`: push the event into the **first**
group satisfying the predicate, or report that none matched. -/
def pushFirst (p : EventGroup → Bool) (ev : Event) :
    List EventGroup → Option (List EventGroup)
  | [] => none
  | g :: gs =>
    if p g then some ({ g with events := g.events ++ [ev] } :: gs)
    else (pushFirst p ev gs).map (g :: ·)

/-- Function `TelegramClient::process_message`.  Value `none` models the abort of the
`message.sender().unwrap()` call on a fresh incoming message without a
sender.  Incoming events are pushed into the first group with the same
`user_id` (a new group is appended at the tail if none exists);
outgoing events into the first group with `from_self = true`. -/
def process_message (st : State) (m : TMessage) : Option State :=
  let event_id := toString m.id
  if event_id ∈ st.processed_events then some st
  else
    let processed := event_id :: st.processed_events
    if !m.outgoing then
      match m.sender with
      | none => none
      | some sender =>
        let sender_id := toString sender.id
        let event : Event := ⟨event_id, m.date, .Message m.text⟩
        let groups :=
          match pushFirst (fun g => g.user_id == sender_id) event st.event_groups with
          | some gs => gs
          | none => st.event_groups ++
              [⟨sender_id, sender.name, none, [event], false⟩]
        some { st with processed_events := processed, event_groups := groups }
    else
      let event : Event := ⟨event_id, m.date, .Message m.text⟩
      let groups :=
        match pushFirst (fun g => g.from_self) event st.event_groups with
        | some gs => gs
        | none => st.event_groups ++
            [⟨st.user_id, "You", none, [event], true⟩]
      some { st with processed_events := processed, event_groups := groups }

/-- Type `Update` (grammers): only `NewMessage` is handled by
`process_update`; everything else is ignored. -/
inductive Update : Type where
  | NewMessage (m : TMessage)
  | Other
deriving Repr

/-- Function `TelegramClient::process_update`. -/
def process_update (st : State) (u : Update) : Option State :=
  match u with
  | .NewMessage m => process_message st m
  | .Other => some st

/-- Sequential processing of a fetched message batch, in delivered
order (the `for message in messages_vec` loops of the source). -/
def processMessages (st : State) : List TMessage → Option State
  | [] => some st
  | m :: ms => (process_message st m).bind (fun s => processMessages s ms)

/-- Function `TelegramClient::load_chat_history`: the provider delivers the
batch newest-first (`iter_messages`); the messages are then processed
one by one **in that delivered order** — the batch is not reversed. -/
def load_chat_history (st : State) (fetched : List TMessage) : Option State :=
  processMessages st fetched

/-- Function `TelegramClient::sync`: when a chat is selected and `find_chat`
finds it, the last messages of **that chat only** are fetched and fed
through `process_update` as `NewMessage` updates; otherwise nothing is
fetched.  `chatMessages` models the provider: the recent messages of a
chat id, or `none` when `find_chat` fails (which `sync` swallows). -/
def sync (chatMessages : String → Option (List TMessage)) (st : State) :
    Option (State × Except String Unit) :=
  match st.selected_chat with
  | none => some (st, .ok ())
  | some chat_id =>
    match chatMessages chat_id with
    | none => some (st, .ok ())
    | some msgs =>
      ((msgs.map Update.NewMessage).foldlM process_update st).map
        (fun s => (s, .ok ()))

/-- Function `TelegramClient::select_chat`: here `find_chat` runs before any
mutation; then `event_groups` and `processed_events` are cleared and
`selected_chat` is set, and only then `load_chat_history` fetches and
processes the initial messages (its provider fetch may fail, after the
reset).  `none` models a process abort inside `process_message`. -/
def select_chat (chat_id : String) (findChat : Except String Unit)
    (fetched : Except String (List TMessage)) (st : State) :
    Option (State × Except String Unit) :=
  match findChat with
  | .error e => some (st, .error e)
  | .ok _ =>
    let st1 := { st with event_groups := [], processed_events := [],
                         selected_chat := some chat_id }
    match fetched with
    | .error e => some (st1, .error e)
    | .ok msgs =>
      (load_chat_history st1 msgs).map (fun s => (s, .ok ()))

end Telegram

/-! ## Concrete test data used by counterexamples and witnesses -/

namespace Cex

open EChat

/-- A timeline holding one group of one event, as left by a previous
selection. -/
def aliceGroup : EventGroup :=
  ⟨"@alice", "@alice", none, [⟨"e1", 1, .Message "hi"⟩], false⟩

/-- A Matrix client state with a non-trivial previous selection. -/
def stC6 : Matrix.State :=
  ⟨some "t0", [aliceGroup], some "!r1", some "p1", ["e1"]⟩

/-- An incoming Telegram message from sender `sid` with id `i` at time
`t`. -/
def tmsg (i : Int) (sid : Int) (t : Nat) : Telegram.TMessage :=
  ⟨i, false, some ⟨sid, "S" ++ toString sid⟩, t, "m"⟩

/-- A fresh Telegram client state with nothing selected or processed. -/
def tst0 : Telegram.State := ⟨[], none, [], "me"⟩

/-- A message-like Matrix chunk entry with supported content. -/
def mev (i : String) (s : String) (t : Nat) : Matrix.AnySyncTimelineEvent :=
  .MessageLike i s t (some (.RoomMessage "m"))

/-- A Matrix room with an empty member table (profile resolution falls
back to the raw sender id). -/
def mroom : Matrix.Room := ⟨[]⟩

end Cex

/-! ## Helper lemmas -/

/-- Reversing a list and then consing each element onto an accumulator
(the `insert(0, …)` loop of the prepend branch) prepends the list. -/
theorem foldl_cons_reverse {α : Type} (l acc : List α) :
    l.reverse.foldl (fun gs g => g :: gs) acc = l ++ acc := by
  induction l generalizing acc with
  | nil => rfl
  | cons a l ih => simp [List.foldl_append, ih]

namespace Matrix

open EChat

/-- Loop `syncRooms` only touches `event_groups` and `processed_events`. -/
theorem syncRooms_preserves (selfId : String) (getRoom : String → Option Room)
    (l : List RoomSyncInfo) (st : State) :
    ((syncRooms selfId getRoom l st).1).sync_token = st.sync_token ∧
    ((syncRooms selfId getRoom l st).1).selected_room = st.selected_room ∧
    ((syncRooms selfId getRoom l st).1).pagination_token = st.pagination_token := by
  induction l generalizing st with
  | nil => exact ⟨rfl, rfl, rfl⟩
  | cons info rest ih =>
    unfold syncRooms
    cases getRoom info.room_id with
    | none => exact ⟨rfl, rfl, rfl⟩
    | some room => exact ih _

/-- One loop iteration can only extend the dedup set. -/
theorem processEvent_processed_sub (selfId : String) (room : Room) (acc : Acc)
    (ev : AnySyncTimelineEvent) :
    acc.processed ⊆ (processEvent selfId room acc ev).processed := by
  cases ev with
  | State => exact fun x hx => hx
  | MessageLike id s t c =>
    simp only [processEvent]
    split
    · exact fun x hx => hx
    · split
      · exact List.subset_cons_self _ _
      · split
        · split
          · exact List.subset_cons_self _ _
          · exact List.subset_cons_self _ _
        · exact List.subset_cons_self _ _

/-- The whole loop can only extend the dedup set. -/
theorem foldl_processed_sub (selfId : String) (room : Room)
    (L : List AnySyncTimelineEvent) :
    ∀ acc : Acc, acc.processed ⊆ (L.foldl (processEvent selfId room) acc).processed := by
  induction L with
  | nil => exact fun _ x hx => hx
  | cons e L ih =>
    exact fun acc =>
      (processEvent_processed_sub selfId room acc e).trans (ih _)

/-- After one iteration on a message-like event, its id is in the
dedup set (it is inserted even when the event is later dropped for
unsupported content). -/
theorem processEvent_inserts (selfId : String) (room : Room) (acc : Acc)
    (id s : String) (t : Nat) (c : Option MsgContent) :
    id ∈ (processEvent selfId room acc (.MessageLike id s t c)).processed := by
  simp only [processEvent]
  split
  · assumption
  · split
    · exact List.mem_cons_self _ _
    · split
      · split
        · exact List.mem_cons_self _ _
        · exact List.mem_cons_self _ _
      · exact List.mem_cons_self _ _

/-- After the loop, every message-like id of the chunk is in the dedup
set. -/
theorem foldl_processed_mem (selfId : String) (room : Room)
    (L : List AnySyncTimelineEvent) :
    ∀ (acc : Acc) (id s : String) (t : Nat) (c : Option MsgContent),
      (AnySyncTimelineEvent.MessageLike id s t c) ∈ L →
      id ∈ (L.foldl (processEvent selfId room) acc).processed := by
  induction L with
  | nil => intro _ _ _ _ _ h; cases h
  | cons e L ih =>
    intro acc id s t c hmem
    rcases List.mem_cons.mp hmem with he | h
    · subst he
      exact foldl_processed_sub selfId room L _
        (processEvent_inserts selfId room acc id s t c)
    · exact ih _ id s t c h

/-- A loop run in which every message-like id is already in the dedup
set leaves the whole accumulator unchanged. -/
theorem foldl_skip (selfId : String) (room : Room)
    (L : List AnySyncTimelineEvent) :
    ∀ (ps : List String) (cur : Option EventGroup) (ng : List EventGroup),
      (∀ (id s : String) (t : Nat) (c : Option MsgContent),
          (AnySyncTimelineEvent.MessageLike id s t c) ∈ L → id ∈ ps) →
      L.foldl (processEvent selfId room) ⟨ps, cur, ng⟩ = ⟨ps, cur, ng⟩ := by
  induction L with
  | nil => intro ps cur ng _; rfl
  | cons e L ih =>
    intro ps cur ng h
    cases e with
    | State =>
      exact ih ps cur ng (fun id s t c hm => h id s t c (List.mem_cons_of_mem _ hm))
    | MessageLike id s t c =>
      have hid : id ∈ ps := h id s t c (List.mem_cons_self _ _)
      have hstep : processEvent selfId room ⟨ps, cur, ng⟩ (.MessageLike id s t c)
          = ⟨ps, cur, ng⟩ := by
        simp [processEvent, hid]
      show L.foldl (processEvent selfId room)
          (processEvent selfId room ⟨ps, cur, ng⟩ (.MessageLike id s t c)) = _
      rw [hstep]
      exact ih ps cur ng (fun id s t c hm => h id s t c (List.mem_cons_of_mem _ hm))

/-- Feeding a batch whose message-like ids are all already in the dedup
set changes nothing, in either mode. -/
theorem process_timeline_events_stale (selfId : String) (room : Room)
    (timeline : Messages) (prepend : Bool) (gs : List EventGroup) (ps : List String)
    (hmem : ∀ (id s : String) (t : Nat) (c : Option MsgContent),
        (AnySyncTimelineEvent.MessageLike id s t c) ∈ timeline.chunk → id ∈ ps) :
    process_timeline_events selfId room timeline prepend gs ps = (gs, ps) := by
  unfold process_timeline_events newGroupsOf
  rw [foldl_skip selfId room timeline.chunk.reverse ps none []
    (fun id s t c hm => hmem id s t c (List.mem_reverse.mp hm))]
  cases prepend <;> simp

end Matrix

namespace Telegram

/-- Function `process_message` can only extend the dedup set. -/
theorem process_message_processed_sub (st : State) (m : TMessage) (st' : State)
    (h : process_message st m = some st') :
    st.processed_events ⊆ st'.processed_events := by
  simp only [process_message] at h
  by_cases hmem : toString m.id ∈ st.processed_events
  · rw [if_pos hmem] at h
    cases h
    exact fun x hx => hx
  · rw [if_neg hmem] at h
    cases hout : m.outgoing with
    | false =>
      cases hs : m.sender with
      | none => simp [hout, hs] at h
      | some sender =>
        simp only [hout, hs, Bool.not_false, if_true, Option.some.injEq] at h
        subst h
        exact List.subset_cons_self _ _
    | true =>
      simp only [hout, Bool.not_true, Bool.false_eq_true, if_false,
        Option.some.injEq] at h
      subst h
      exact List.subset_cons_self _ _

/-- A successfully processed message has its id in the resulting dedup
set. -/
theorem process_message_inserts (st : State) (m : TMessage) (st' : State)
    (h : process_message st m = some st') :
    toString m.id ∈ st'.processed_events := by
  simp only [process_message] at h
  by_cases hmem : toString m.id ∈ st.processed_events
  · rw [if_pos hmem] at h
    cases h
    exact hmem
  · rw [if_neg hmem] at h
    cases hout : m.outgoing with
    | false =>
      cases hs : m.sender with
      | none => simp [hout, hs] at h
      | some sender =>
        simp only [hout, hs, Bool.not_false, if_true, Option.some.injEq] at h
        subst h
        exact List.mem_cons_self _ _
    | true =>
      simp only [hout, Bool.not_true, Bool.false_eq_true, if_false,
        Option.some.injEq] at h
      subst h
      exact List.mem_cons_self _ _

/-- A successful batch run can only extend the dedup set. -/
theorem processMessages_processed_sub (ms : List TMessage) :
    ∀ (st st' : State), processMessages st ms = some st' →
      st.processed_events ⊆ st'.processed_events := by
  induction ms with
  | nil => intro st st' h; cases h; exact fun x hx => hx
  | cons m ms ih =>
    intro st st' h
    unfold processMessages at h
    cases hm : process_message st m with
    | none => rw [hm] at h; cases h
    | some s =>
      rw [hm] at h
      exact (process_message_processed_sub st m s hm).trans (ih s st' h)

/-- After a successful batch run, every message id of the batch is in
the dedup set. -/
theorem processMessages_mem (ms : List TMessage) :
    ∀ (st st' : State), processMessages st ms = some st' →
      ∀ m ∈ ms, toString m.id ∈ st'.processed_events := by
  induction ms with
  | nil => intro st st' _ m hm; cases hm
  | cons m0 ms ih =>
    intro st st' h m hm
    unfold processMessages at h
    cases hm0 : process_message st m0 with
    | none => rw [hm0] at h; cases h
    | some s =>
      rw [hm0] at h
      rcases List.mem_cons.mp hm with he | hmem
      · subst he
        exact processMessages_processed_sub ms s st' h
          (process_message_inserts st m s hm0)
      · exact ih s st' h m hmem

/-- A batch whose ids are all already in the dedup set is processed as
a no-op. -/
theorem processMessages_skip (ms : List TMessage) :
    ∀ st : State, (∀ m ∈ ms, toString m.id ∈ st.processed_events) →
      processMessages st ms = some st := by
  induction ms with
  | nil => intro st _; rfl
  | cons m ms ih =>
    intro st h
    have hm : process_message st m = some st := by
      simp only [process_message]
      rw [if_pos (h m (List.mem_cons_self _ _))]
    unfold processMessages
    rw [hm]
    exact ih st (fun m' hm' => h m' (List.mem_cons_of_mem _ hm'))

/-- Pushing into the first matching group: when the groups left of `g`
all fail the predicate and `g` satisfies it, `g` is the one extended. -/
theorem pushFirst_found (p : EChat.EventGroup → Bool) (ev : EChat.Event) :
    ∀ (gs1 : List EChat.EventGroup) (g : EChat.EventGroup)
      (gs2 : List EChat.EventGroup),
      (∀ g' ∈ gs1, p g' = false) → p g = true →
      pushFirst p ev (gs1 ++ g :: gs2)
        = some (gs1 ++ { g with events := g.events ++ [ev] } :: gs2) := by
  intro gs1
  induction gs1 with
  | nil =>
    intro g gs2 _ hp
    simp [pushFirst, hp]
  | cons a gs1 ih =>
    intro g gs2 h hp
    have ha : p a = false := h a (List.mem_cons_self _ _)
    simp [pushFirst, ha,
      ih g gs2 (fun g' hg' => h g' (List.mem_cons_of_mem _ hg')) hp]

end Telegram

/-! ## Claims -/

/-- C9: `MatrixClient::delete_event` returns `Ok` and leaves the whole
client state unchanged; the list of provider requests it issues is
empty. -/
theorem claim_C9_delete_event_noop (st : Matrix.State) (message_id : String) :
    Matrix.delete_event st message_id = (st, [], .ok ()) := rfl

/-- C10: `TelegramClient::process_message` aborts (the
`message.sender().unwrap()` call) on any fresh incoming message whose
sender is absent; `none` models the abort. -/
theorem claim_C10_sender_unwrap_aborts (st : Telegram.State) (m : Telegram.TMessage)
    (hfresh : toString m.id ∉ st.processed_events)
    (hincoming : m.outgoing = false) (hsender : m.sender = none) :
    Telegram.process_message st m = none := by
  unfold Telegram.process_message
  rw [if_neg hfresh]
  simp [hincoming, hsender]

/-- Witness for C10: a concrete fresh incoming sender-less message
aborts processing. -/
theorem claim_C10_witness :
    Telegram.process_message Cex.tst0 ⟨7, false, none, 7, "x"⟩ = none :=
  claim_C10_sender_unwrap_aborts Cex.tst0 ⟨7, false, none, 7, "x"⟩
    (by decide) rfl rfl

/-- C7: a failing provider sync call leaves the whole state (in
particular `sync_cursor`) unchanged; a successful one replaces the
cursor with the `next_batch` of the response. -/
theorem claim_C7_sync_failure_leaves_cursor (selfId : String)
    (getRoom : String → Option Matrix.Room) :
    (∀ e st, (Matrix.sync selfId getRoom (.error e) st).1 = st) ∧
    (∀ resp st,
      ((Matrix.sync selfId getRoom (.ok resp) st).1).sync_token
        = some resp.next_batch) := by
  refine ⟨fun e st => rfl, fun resp st => ?_⟩
  unfold Matrix.sync
  exact (Matrix.syncRooms_preserves selfId getRoom _ _).1

/-- C6 counterexample: with a non-empty previous selection, a Matrix
`select_chat` whose initial history fetch fails leaves the timeline,
processed-event-id set and pagination cursor cleared, not as they were
before the call. -/
theorem claim_C6_counterexample :
    (Matrix.select_chat "@me" ⟨.ok "!r2", some Cex.mroom, .error "network"⟩
        Cex.stC6).1.event_groups = [] ∧
    Cex.stC6.event_groups ≠ [] ∧
    (Matrix.select_chat "@me" ⟨.ok "!r2", some Cex.mroom, .error "network"⟩
        Cex.stC6).1.processed_events = [] ∧
    Cex.stC6.processed_events ≠ [] ∧
    (Matrix.select_chat "@me" ⟨.ok "!r2", some Cex.mroom, .error "network"⟩
        Cex.stC6).1.pagination_token = none ∧
    Cex.stC6.pagination_token ≠ none := by
  refine ⟨rfl, by decide, rfl, by decide, rfl, by decide⟩

/-- C6 amended: failures detected before any mutation (Matrix: id parse
failure or room not found; Telegram: chat not found) leave the state
exactly as it was; but a provider error during the initial history
fetch happens after the reset, leaving the timeline, processed set and
(Matrix) pagination cursor cleared — Telegram has additionally already
switched `selected_chat` to the new conversation. -/
theorem claim_C6_amended (selfId : String) :
    (∀ st e room fetch,
        Matrix.select_chat selfId ⟨.error e, room, fetch⟩ st = (st, .error e)) ∧
    (∀ st rid fetch,
        Matrix.select_chat selfId ⟨.ok rid, none, fetch⟩ st
          = (st, .error ("Комната не найдена: " ++ rid))) ∧
    (∀ st rid room e,
        Matrix.select_chat selfId ⟨.ok rid, some room, .error e⟩ st
          = ({ st with event_groups := [], pagination_token := none,
                       processed_events := [] }, .error e)) ∧
    (∀ chat_id e fetched st,
        Telegram.select_chat chat_id (.error e) fetched st = some (st, .error e)) ∧
    (∀ chat_id e st,
        Telegram.select_chat chat_id (.ok ()) (.error e) st
          = some ({ st with event_groups := [], processed_events := [],
                            selected_chat := some chat_id }, .error e)) :=
  ⟨fun _ _ _ _ => rfl, fun _ _ _ => rfl, fun _ _ _ _ => rfl,
   fun _ _ _ _ => rfl, fun _ _ _ => rfl⟩

/-- C5: feeding the same raw event batch twice (in either mode) yields
the same timeline and the same processed-event-id set as feeding it
once — for Matrix whatever the mode, and for Telegram whenever the
first run completes. -/
theorem claim_C5_idempotence :
    (∀ (selfId : String) (room : Matrix.Room) (timeline : Matrix.Messages)
        (prepend : Bool) (gs : List EChat.EventGroup) (ps : List String),
        Matrix.process_timeline_events selfId room timeline prepend
          (Matrix.process_timeline_events selfId room timeline prepend gs ps).1
          (Matrix.process_timeline_events selfId room timeline prepend gs ps).2
        = Matrix.process_timeline_events selfId room timeline prepend gs ps) ∧
    (∀ (st : Telegram.State) (ms : List Telegram.TMessage) (st1 : Telegram.State),
        Telegram.processMessages st ms = some st1 →
        Telegram.processMessages st1 ms = some st1) := by
  constructor
  · intro selfId room timeline prepend gs ps
    have hmem : ∀ (id s : String) (t : Nat) (c : Option Matrix.MsgContent),
        (Matrix.AnySyncTimelineEvent.MessageLike id s t c) ∈ timeline.chunk →
        id ∈ (Matrix.process_timeline_events selfId room timeline prepend gs ps).2 :=
      fun id s t c hm =>
        Matrix.foldl_processed_mem selfId room timeline.chunk.reverse
          ⟨ps, none, []⟩ id s t c (List.mem_reverse.mpr hm)
    exact Matrix.process_timeline_events_stale selfId room timeline prepend _ _ hmem
  · intro st ms st1 h
    exact Telegram.processMessages_skip ms st1 (Telegram.processMessages_mem ms st st1 h)

/-- Witness for C5: a concrete one-message batch, fed twice, yields the
state the first feed produced. -/
theorem claim_C5_witness :
    Telegram.processMessages Cex.tst0 [Cex.tmsg 1 100 1] = some
      ⟨[⟨"100", "S100", none, [⟨"1", 1, .Message "m"⟩], false⟩], none, ["1"], "me"⟩ ∧
    Telegram.processMessages
      ⟨[⟨"100", "S100", none, [⟨"1", 1, .Message "m"⟩], false⟩], none, ["1"], "me"⟩
      [Cex.tmsg 1 100 1] = some
      ⟨[⟨"100", "S100", none, [⟨"1", 1, .Message "m"⟩], false⟩], none, ["1"], "me"⟩ :=
  ⟨by decide, claim_C5_idempotence.2 Cex.tst0 [Cex.tmsg 1 100 1] _ (by decide)⟩

/-- C4: in prepend mode the groups newly built from the batch are
inserted as distinct leading entries in front of the previously
existing groups, which survive unchanged — in particular nothing is
ever merged into the previously existing oldest group, whatever the
senders involved. -/
theorem claim_C4_prepend_never_merges (selfId : String) (room : Matrix.Room)
    (timeline : Matrix.Messages) (gs : List EChat.EventGroup) (ps : List String) :
    (Matrix.process_timeline_events selfId room timeline true gs ps).1 =
      ((Matrix.newGroupsOf selfId room timeline.chunk ps).newGroups ++
        (Matrix.newGroupsOf selfId room timeline.chunk ps).current.toList) ++ gs := by
  unfold Matrix.process_timeline_events
  simp [foldl_cons_reverse]

/-- C3 counterexample: a timeline ending in a group of sender `A` and a
fresh appended event from `A` (a new aggregator call, append mode)
yields a second, duplicate `A`-group at the tail instead of extending
the existing one. -/
theorem claim_C3_counterexample :
    Matrix.process_timeline_events "@me" Cex.mroom
      ⟨[Cex.mev "e5" "A" 5], "", none⟩ false
      [⟨"A", "A", none, [⟨"e1", 1, .Message "m"⟩], false⟩] ["e1"]
    = ([⟨"A", "A", none, [⟨"e1", 1, .Message "m"⟩], false⟩,
        ⟨"A", "A", none, [⟨"e5", 5, .Message "m"⟩], false⟩], ["e5", "e1"]) := by
  decide

/-- C3 amended: a new Matrix aggregator call in append mode never
merges into the existing last group — a fresh supported event always
becomes a new group appended at the tail, whatever the sender of the
last group.  The Telegram client instead pushes the event into the *first*
existing group with the same sender (so it extends the last group only
when no earlier group shares that sender). -/
theorem claim_C3_amended :
    (∀ (selfId : String) (room : Matrix.Room) (gs : List EChat.EventGroup)
        (ps : List String) (id s start : String) (t : Nat)
        (c : Option Matrix.MsgContent) (stop : Option String) (kind : EChat.EventKind),
        id ∉ ps → Matrix.contentToKind c = some kind →
        Matrix.process_timeline_events selfId room
          ⟨[.MessageLike id s t c], start, stop⟩ false gs ps
        = (gs ++ [⟨s, ((room.get_member s).bind Matrix.MemberInfo.display_name).getD s,
                   (room.get_member s).bind Matrix.MemberInfo.avatar,
                   [⟨id, t, kind⟩], s == selfId⟩], id :: ps)) ∧
    (∀ (st : Telegram.State) (m : Telegram.TMessage) (sender : Telegram.Sender)
        (gs1 : List EChat.EventGroup) (g : EChat.EventGroup)
        (gs2 : List EChat.EventGroup),
        st.event_groups = gs1 ++ g :: gs2 →
        m.outgoing = false → m.sender = some sender →
        toString m.id ∉ st.processed_events →
        (∀ g' ∈ gs1, (g'.user_id == toString sender.id) = false) →
        (g.user_id == toString sender.id) = true →
        Telegram.process_message st m
          = some { st with
              processed_events := toString m.id :: st.processed_events,
              event_groups := gs1 ++
                { g with events := g.events ++
                    [⟨toString m.id, m.date, .Message m.text⟩] } :: gs2 }) := by
  constructor
  · intro selfId room gs ps id s start t c stop kind hfresh hkind
    simp [Matrix.process_timeline_events, Matrix.newGroupsOf, Matrix.processEvent,
      hfresh, hkind]
  · intro st m sender gs1 g gs2 hgs hout hs hfresh hgs1 hg
    simp only [Telegram.process_message]
    rw [if_neg hfresh]
    simp only [hout, Bool.not_false, if_true, hs]
    rw [hgs, Telegram.pushFirst_found _ _ gs1 g gs2 hgs1 hg]

/-- Witness for C3 amended: both conjuncts applied at concrete inputs —
a fresh Matrix event from `A` appended onto an `A`-tailed timeline
starts a new group; a fresh Telegram message from sender 100 extends
the (first and last) group of sender 100. -/
theorem claim_C3_witness :
    Matrix.process_timeline_events "@me" Cex.mroom
      ⟨[.MessageLike "e9" "A" 9 (some (.RoomMessage "m"))], "", none⟩ false
      [⟨"A", "A", none, [⟨"e1", 1, .Message "m"⟩], false⟩] ["e1"]
    = ([⟨"A", "A", none, [⟨"e1", 1, .Message "m"⟩], false⟩,
        ⟨"A", "A", none, [⟨"e9", 9, .Message "m"⟩], false⟩], ["e9", "e1"]) ∧
    Telegram.process_message
      ⟨[⟨"100", "S100", none, [⟨"1", 1, .Message "m"⟩], false⟩], none, ["1"], "me"⟩
      (Cex.tmsg 2 100 2)
    = some ⟨[⟨"100", "S100", none,
             [⟨"1", 1, .Message "m"⟩, ⟨"2", 2, .Message "m"⟩], false⟩],
            none, ["2", "1"], "me"⟩ := by
  constructor
  · exact claim_C3_amended.1 "@me" Cex.mroom
      [⟨"A", "A", none, [⟨"e1", 1, .Message "m"⟩], false⟩] ["e1"]
      "e9" "A" "" 9 (some (.RoomMessage "m")) none (.Message "m")
      (by decide) rfl
  · exact claim_C3_amended.2
      ⟨[⟨"100", "S100", none, [⟨"1", 1, .Message "m"⟩], false⟩], none, ["1"], "me"⟩
      (Cex.tmsg 2 100 2) ⟨100, "S100"⟩ [] _ []
      rfl rfl rfl (by decide) (by intro g' hg'; cases hg') (by decide)

/-- C1 counterexample: the Telegram aggregator fed the fresh batch
`[A@1, A@2, B@3, A@4]` (senders 100 = A, 200 = B) in order produces
only two groups — `A@4` is pushed into the earlier `A`-group across
the intervening `B`-group — instead of the three groups the claim
requires. -/
theorem claim_C1_counterexample :
    (Telegram.processMessages Cex.tst0
        [Cex.tmsg 1 100 1, Cex.tmsg 2 100 2, Cex.tmsg 3 200 3, Cex.tmsg 4 100 4]).map
      (fun s => s.event_groups.map
        (fun g => (g.user_id, g.events.map EChat.Event.timestamp)))
    = some [("100", [1, 2, 4]), ("200", [3])] := by decide

/-- C1 amended: fed the four fresh events `[A@t1, A@t2, B@t3, A@t4]`,
the Matrix aggregator (delivered newest-first, processed oldest-first)
appends exactly the three groups `[A:{t1,t2}, B:{t3}, A:{t4}]` to any
timeline; the Telegram aggregator instead pushes `A@t4` into the first
`A`-group, yielding only the two groups `[A:{t1,t2,t4}, B:{t3}]` on an
empty timeline. -/
theorem claim_C1_amended :
    (∀ (selfId A B e1 e2 e3 e4 : String) (t1 t2 t3 t4 : Nat)
        (room : Matrix.Room) (gs : List EChat.EventGroup) (ps : List String),
        A ≠ B →
        e1 ∉ ps → e2 ∉ ps → e3 ∉ ps → e4 ∉ ps →
        e2 ≠ e1 → e3 ≠ e1 → e3 ≠ e2 → e4 ≠ e1 → e4 ≠ e2 → e4 ≠ e3 →
        Matrix.process_timeline_events selfId room
          ⟨[Matrix.AnySyncTimelineEvent.MessageLike e4 A t4 (some (.RoomMessage "m")),
            .MessageLike e3 B t3 (some (.RoomMessage "m")),
            .MessageLike e2 A t2 (some (.RoomMessage "m")),
            .MessageLike e1 A t1 (some (.RoomMessage "m"))], "", none⟩ false gs ps
        = (gs ++
            [⟨A, ((room.get_member A).bind Matrix.MemberInfo.display_name).getD A,
              (room.get_member A).bind Matrix.MemberInfo.avatar,
              [⟨e1, t1, .Message "m"⟩, ⟨e2, t2, .Message "m"⟩], A == selfId⟩,
             ⟨B, ((room.get_member B).bind Matrix.MemberInfo.display_name).getD B,
              (room.get_member B).bind Matrix.MemberInfo.avatar,
              [⟨e3, t3, .Message "m"⟩], B == selfId⟩,
             ⟨A, ((room.get_member A).bind Matrix.MemberInfo.display_name).getD A,
              (room.get_member A).bind Matrix.MemberInfo.avatar,
              [⟨e4, t4, .Message "m"⟩], A == selfId⟩],
           e4 :: e3 :: e2 :: e1 :: ps)) ∧
    (∀ (t1 t2 t3 t4 : Nat) (sel : Option String) (ps : List String) (uid : String),
        "1" ∉ ps → "2" ∉ ps → "3" ∉ ps → "4" ∉ ps →
        Telegram.processMessages ⟨[], sel, ps, uid⟩
          [⟨1, false, some ⟨100, "Alice"⟩, t1, "m"⟩,
           ⟨2, false, some ⟨100, "Alice"⟩, t2, "m"⟩,
           ⟨3, false, some ⟨200, "Bob"⟩, t3, "m"⟩,
           ⟨4, false, some ⟨100, "Alice"⟩, t4, "m"⟩]
        = some ⟨[⟨"100", "Alice", none,
                  [⟨"1", t1, .Message "m"⟩, ⟨"2", t2, .Message "m"⟩,
                   ⟨"4", t4, .Message "m"⟩], false⟩,
                 ⟨"200", "Bob", none, [⟨"3", t3, .Message "m"⟩], false⟩],
                sel, "4" :: "3" :: "2" :: "1" :: ps, uid⟩) := by
  constructor
  · intro selfId A B e1 e2 e3 e4 t1 t2 t3 t4 room gs ps hAB h1 h2 h3 h4
      h21 h31 h32 h41 h42 h43
    have hBA : B ≠ A := Ne.symm hAB
    simp [Matrix.process_timeline_events, Matrix.newGroupsOf, Matrix.processEvent,
      Matrix.contentToKind, h1, h2, h3, h4, h21, h31, h32, h41, h42, h43, hAB, hBA]
  · intro t1 t2 t3 t4 sel ps uid h1 h2 h3 h4
    have s1 : toString (1 : Int) = "1" := rfl
    have s2 : toString (2 : Int) = "2" := rfl
    have s3 : toString (3 : Int) = "3" := rfl
    have s4 : toString (4 : Int) = "4" := rfl
    have s100 : toString (100 : Int) = "100" := rfl
    have s200 : toString (200 : Int) = "200" := rfl
    simp [Telegram.processMessages, Telegram.process_message, Telegram.pushFirst,
      s1, s2, s3, s4, s100, s200, h1, h2, h3, h4]

/-- Witness for C1 amended: both conjuncts at concrete inputs — Matrix
yields three groups, Telegram two. -/
theorem claim_C1_witness :
    Matrix.process_timeline_events "@me" Cex.mroom
      ⟨[Matrix.AnySyncTimelineEvent.MessageLike "e4" "A" 4 (some (.RoomMessage "m")),
        .MessageLike "e3" "B" 3 (some (.RoomMessage "m")),
        .MessageLike "e2" "A" 2 (some (.RoomMessage "m")),
        .MessageLike "e1" "A" 1 (some (.RoomMessage "m"))], "", none⟩ false [] []
    = ([⟨"A", "A", none, [⟨"e1", 1, .Message "m"⟩, ⟨"e2", 2, .Message "m"⟩], false⟩,
        ⟨"B", "B", none, [⟨"e3", 3, .Message "m"⟩], false⟩,
        ⟨"A", "A", none, [⟨"e4", 4, .Message "m"⟩], false⟩],
       ["e4", "e3", "e2", "e1"]) ∧
    Telegram.processMessages ⟨[], none, [], "me"⟩
      [⟨1, false, some ⟨100, "Alice"⟩, 1, "m"⟩,
       ⟨2, false, some ⟨100, "Alice"⟩, 2, "m"⟩,
       ⟨3, false, some ⟨200, "Bob"⟩, 3, "m"⟩,
       ⟨4, false, some ⟨100, "Alice"⟩, 4, "m"⟩]
    = some ⟨[⟨"100", "Alice", none,
              [⟨"1", 1, .Message "m"⟩, ⟨"2", 2, .Message "m"⟩,
               ⟨"4", 4, .Message "m"⟩], false⟩,
             ⟨"200", "Bob", none, [⟨"3", 3, .Message "m"⟩], false⟩],
            none, ["4", "3", "2", "1"], "me"⟩ :=
  ⟨claim_C1_amended.1 "@me" "A" "B" "e1" "e2" "e3" "e4" 1 2 3 4 Cex.mroom [] []
      (by decide) (by decide) (by decide) (by decide) (by decide)
      (by decide) (by decide) (by decide) (by decide) (by decide) (by decide),
   claim_C1_amended.2 1 2 3 4 none [] "me"
      (by decide) (by decide) (by decide) (by decide)⟩

/-- Append mode leaves the existing groups as a prefix and adds the
newly built groups behind them. -/
theorem Matrix.process_append_eq (selfId : String) (room : Matrix.Room)
    (timeline : Matrix.Messages) (gs : List EChat.EventGroup) (ps : List String) :
    (Matrix.process_timeline_events selfId room timeline false gs ps).1
      = gs ++ ((Matrix.newGroupsOf selfId room timeline.chunk ps).newGroups
          ++ (Matrix.newGroupsOf selfId room timeline.chunk ps).current.toList) := by
  simp [Matrix.process_timeline_events]

/-- Loop `syncRooms` commutes with overriding `selected_room`: the loop
never reads the selection. -/
theorem Matrix.syncRooms_selected_comm (selfId : String)
    (getRoom : String → Option Matrix.Room) (l : List Matrix.RoomSyncInfo) :
    ∀ (st : Matrix.State) (sel : Option String),
      Matrix.syncRooms selfId getRoom l { st with selected_room := sel }
        = ({ (Matrix.syncRooms selfId getRoom l st).1 with selected_room := sel },
           (Matrix.syncRooms selfId getRoom l st).2) := by
  induction l with
  | nil => intro st sel; rfl
  | cons info rest ih =>
    intro st sel
    unfold Matrix.syncRooms
    cases getRoom info.room_id with
    | none => rfl
    | some room =>
      dsimp only
      exact ih
        { st with
          event_groups := (Matrix.process_timeline_events selfId room
            ⟨info.events, info.prev_batch.getD "", info.prev_batch⟩ false
            st.event_groups st.processed_events).1,
          processed_events := (Matrix.process_timeline_events selfId room
            ⟨info.events, info.prev_batch.getD "", info.prev_batch⟩ false
            st.event_groups st.processed_events).2 } sel

/-- Every room of the response only appends to the timeline: the
previous groups survive as a prefix. -/
theorem Matrix.syncRooms_appends (selfId : String)
    (getRoom : String → Option Matrix.Room) (l : List Matrix.RoomSyncInfo) :
    ∀ st : Matrix.State, ∃ suff,
      (Matrix.syncRooms selfId getRoom l st).1.event_groups
        = st.event_groups ++ suff := by
  induction l with
  | nil => intro st; exact ⟨[], by simp [Matrix.syncRooms]⟩
  | cons info rest ih =>
    intro st
    unfold Matrix.syncRooms
    cases getRoom info.room_id with
    | none => exact ⟨[], by simp⟩
    | some room =>
      obtain ⟨suff2, hsuff2⟩ := ih
        { st with
          event_groups := (Matrix.process_timeline_events selfId room
            ⟨info.events, info.prev_batch.getD "", info.prev_batch⟩ false
            st.event_groups st.processed_events).1,
          processed_events := (Matrix.process_timeline_events selfId room
            ⟨info.events, info.prev_batch.getD "", info.prev_batch⟩ false
            st.event_groups st.processed_events).2 }
      refine ⟨((Matrix.newGroupsOf selfId room info.events st.processed_events).newGroups
          ++ (Matrix.newGroupsOf selfId room info.events st.processed_events).current.toList)
          ++ suff2, ?_⟩
      rw [hsuff2]
      show (Matrix.process_timeline_events selfId room
          ⟨info.events, info.prev_batch.getD "", info.prev_batch⟩ false
          st.event_groups st.processed_events).1 ++ suff2 = _
      rw [Matrix.process_append_eq]
      simp [List.append_assoc]

/-- C2 counterexample: with room `!r1` selected, a sync response whose
events belong to room `!r2` still lands those events in the timeline —
events of non-selected conversations are not discarded by the Matrix
client. -/
theorem claim_C2_counterexample :
    (Matrix.sync "@me" (fun rid => if rid == "!r2" then some Cex.mroom else none)
        (.ok ⟨"tok", [⟨"!r2", [Cex.mev "e1" "@alice" 10], none⟩]⟩)
        ⟨none, [], some "!r1", none, []⟩).1.event_groups
      = [⟨"@alice", "@alice", none, [⟨"e1", 10, .Message "m"⟩], false⟩] ∧
    (⟨none, [], some "!r1", none, []⟩ : Matrix.State).selected_room ≠ some "!r2" := by
  exact ⟨by decide, by decide⟩

/-- C2 amended: the Telegram sync consults only the currently selected
conversation (none selected → nothing fetched, state unchanged), but
the Matrix sync feeds the events of **every** joined room of the
response into the single timeline with append mode: its resulting
timeline does not depend on the selected room, and the previous groups
merely gain a suffix built from all rooms. -/
theorem claim_C2_amended :
    (∀ (selfId : String) (getRoom : String → Option Matrix.Room)
        (resp : Except String Matrix.SyncResponse) (st : Matrix.State)
        (sel : Option String),
        (Matrix.sync selfId getRoom resp { st with selected_room := sel }).1.event_groups
          = (Matrix.sync selfId getRoom resp st).1.event_groups) ∧
    (∀ (selfId : String) (getRoom : String → Option Matrix.Room)
        (resp : Matrix.SyncResponse) (st : Matrix.State),
        ∃ suff, (Matrix.sync selfId getRoom (.ok resp) st).1.event_groups
          = st.event_groups ++ suff) ∧
    (∀ (f g : String → Option (List Telegram.TMessage)) (st : Telegram.State)
        (chat_id : String),
        st.selected_chat = some chat_id → f chat_id = g chat_id →
        Telegram.sync f st = Telegram.sync g st) ∧
    (∀ (f : String → Option (List Telegram.TMessage)) (st : Telegram.State),
        st.selected_chat = none → Telegram.sync f st = some (st, .ok ())) := by
  refine ⟨?_, ?_, ?_, ?_⟩
  · intro selfId getRoom resp st sel
    cases resp with
    | error e => rfl
    | ok response =>
      show (Matrix.syncRooms selfId getRoom response.rooms_join
          { st with selected_room := sel, sync_token := some response.next_batch
          }).1.event_groups = _
      rw [show ({ st with selected_room := sel, sync_token := some response.next_batch }
            : Matrix.State)
          = { { st with sync_token := some response.next_batch } with
              selected_room := sel } from rfl,
        Matrix.syncRooms_selected_comm]
      rfl
  · intro selfId getRoom resp st
    exact Matrix.syncRooms_appends selfId getRoom resp.rooms_join _
  · intro f g st chat_id hsel hfg
    simp only [Telegram.sync, hsel, hfg]
  · intro f st hsel
    simp only [Telegram.sync, hsel]

/-- Witness for C2 amended: the Telegram conjuncts applied at concrete
inputs — two providers agreeing on the selected chat give the same
sync result, and a state with no selection syncs to itself. -/
theorem claim_C2_witness :
    Telegram.sync (fun _ => some []) ⟨[], some "c1", [], "me"⟩
      = Telegram.sync (fun c => if c == "c1" then some [] else none)
          ⟨[], some "c1", [], "me"⟩ ∧
    Telegram.sync (fun _ => some []) Cex.tst0 = some (Cex.tst0, .ok ()) :=
  ⟨claim_C2_amended.2.2.1 (fun _ => some [])
      (fun c => if c == "c1" then some [] else none)
      ⟨[], some "c1", [], "me"⟩ "c1" rfl rfl,
   claim_C2_amended.2.2.2 (fun _ => some []) Cex.tst0 rfl⟩

/-- Prepend mode puts the newly built groups in front of the existing
groups, which survive unchanged. -/
theorem Matrix.process_prepend_eq (selfId : String) (room : Matrix.Room)
    (timeline : Matrix.Messages) (gs : List EChat.EventGroup) (ps : List String) :
    (Matrix.process_timeline_events selfId room timeline true gs ps).1
      = ((Matrix.newGroupsOf selfId room timeline.chunk ps).newGroups
          ++ (Matrix.newGroupsOf selfId room timeline.chunk ps).current.toList) ++ gs := by
  unfold Matrix.process_timeline_events
  simp [foldl_cons_reverse]

/-- Soundness of the grouping loop for ordering: processing a list of
raw events whose message timestamps are non-decreasing (oldest first)
keeps every closed group and the current group internally sorted
oldest-first, given a sorted accumulator whose current group is
bounded by the next message timestamp. -/
theorem Matrix.fold_groups_sorted (selfId : String) (room : Matrix.Room)
    (L : List Matrix.AnySyncTimelineEvent) :
    ∀ acc : Matrix.Acc,
      List.Chain' (fun a b => a ≤ b) (Matrix.msgTimestamps L) →
      (∀ g ∈ acc.newGroups, EChat.eventsOldestFirst g) →
      (∀ g, acc.current = some g → EChat.eventsOldestFirst g ∧
        ∀ e ∈ g.events, ∀ t, (Matrix.msgTimestamps L).head? = some t →
          e.timestamp ≤ t) →
      (∀ g ∈ (L.foldl (Matrix.processEvent selfId room) acc).newGroups,
          EChat.eventsOldestFirst g) ∧
      (∀ g, (L.foldl (Matrix.processEvent selfId room) acc).current = some g →
          EChat.eventsOldestFirst g) := by
  induction L with
  | nil =>
    intro acc _ hng hcur
    exact ⟨hng, fun g hg => (hcur g hg).1⟩
  | cons ev L ih =>
    intro acc hL hng hcur
    cases ev with
    | State => exact ih acc hL hng hcur
    | MessageLike id s t c =>
      have hmsg : Matrix.msgTimestamps (.MessageLike id s t c :: L)
          = t :: Matrix.msgTimestamps L := rfl
      rw [hmsg] at hL
      have hL' : List.Chain' (fun a b => a ≤ b) (Matrix.msgTimestamps L) :=
        (List.chain'_cons'.mp hL).2
      have hhead : ∀ t', (Matrix.msgTimestamps L).head? = some t' → t ≤ t' :=
        fun t' ht' => (List.chain'_cons'.mp hL).1 t' (Option.mem_def.mpr ht')
      have hboundcur : ∀ g, acc.current = some g →
          ∀ e ∈ g.events, e.timestamp ≤ t :=
        fun g hg e he => (hcur g hg).2 e he t rfl
      have hcarry : ∀ g, acc.current = some g → EChat.eventsOldestFirst g ∧
          ∀ e ∈ g.events, ∀ t', (Matrix.msgTimestamps L).head? = some t' →
            e.timestamp ≤ t' :=
        fun g hg => ⟨(hcur g hg).1,
          fun e he t' ht' => le_trans (hboundcur g hg e he) (hhead t' ht')⟩
      by_cases hm : id ∈ acc.processed
      · have hstep : Matrix.processEvent selfId room acc (.MessageLike id s t c)
            = acc := by
          simp [Matrix.processEvent, hm]
        rw [List.foldl_cons, hstep]
        exact ih acc hL' hng hcarry
      · cases hk : Matrix.contentToKind c with
        | none =>
          have hstep : Matrix.processEvent selfId room acc (.MessageLike id s t c)
              = { acc with processed := id :: acc.processed } := by
            simp [Matrix.processEvent, hm, hk]
          rw [List.foldl_cons, hstep]
          exact ih _ hL' hng hcarry
        | some kind =>
          cases hc : acc.current with
          | none =>
            have hstep : Matrix.processEvent selfId room acc (.MessageLike id s t c)
                = { acc with
                    processed := id :: acc.processed,
                    current := some ⟨s,
                      ((room.get_member s).bind Matrix.MemberInfo.display_name).getD s,
                      (room.get_member s).bind Matrix.MemberInfo.avatar,
                      [⟨id, t, kind⟩], s == selfId⟩ } := by
              simp [Matrix.processEvent, hm, hk, hc]
            rw [List.foldl_cons, hstep]
            refine ih _ hL' hng ?_
            intro g hg
            obtain rfl := Option.some.inj hg
            refine ⟨by simp [EChat.eventsOldestFirst], ?_⟩
            intro e he t' ht'
            have hee : e = ⟨id, t, kind⟩ := by simpa using he
            subst hee
            exact hhead t' ht'
          | some g0 =>
            by_cases hu : g0.user_id = s
            · have hstep : Matrix.processEvent selfId room acc (.MessageLike id s t c)
                  = { acc with
                      processed := id :: acc.processed,
                      current := some { g0 with
                        events := g0.events ++ [⟨id, t, kind⟩] } } := by
                simp [Matrix.processEvent, hm, hk, hc, hu]
              rw [List.foldl_cons, hstep]
              refine ih _ hL' hng ?_
              intro g hg
              obtain rfl := Option.some.inj hg
              constructor
              · show List.Chain' _ (g0.events ++ [(⟨id, t, kind⟩ : EChat.Event)])
                refine List.chain'_append.mpr
                  ⟨(hcur g0 hc).1, List.chain'_singleton _, ?_⟩
                intro x hx y hy
                have hyy : (⟨id, t, kind⟩ : EChat.Event) = y := by simpa using hy
                subst hyy
                exact hboundcur g0 hc x (List.mem_of_mem_getLast? hx)
              · intro e he t' ht'
                rcases List.mem_append.mp he with h1 | h2
                · exact le_trans (hboundcur g0 hc e h1) (hhead t' ht')
                · have hee : e = ⟨id, t, kind⟩ := by simpa using h2
                  subst hee
                  exact hhead t' ht'
            · have hstep : Matrix.processEvent selfId room acc (.MessageLike id s t c)
                  = { acc with
                      processed := id :: acc.processed,
                      newGroups := acc.newGroups ++ [g0],
                      current := some ⟨s,
                        ((room.get_member s).bind Matrix.MemberInfo.display_name).getD s,
                        (room.get_member s).bind Matrix.MemberInfo.avatar,
                        [⟨id, t, kind⟩], s == selfId⟩ } := by
                simp [Matrix.processEvent, hm, hk, hc, hu]
              rw [List.foldl_cons, hstep]
              refine ih _ hL' ?_ ?_
              · intro g hg
                rcases List.mem_append.mp hg with h1 | h2
                · exact hng g h1
                · have hgg : g = g0 := by simpa using h2
                  subst hgg
                  exact (hcur g hc).1
              · intro g hg
                obtain rfl := Option.some.inj hg
                refine ⟨by simp [EChat.eventsOldestFirst], ?_⟩
                intro e he t' ht'
                have hee : e = ⟨id, t, kind⟩ := by simpa using he
                subst hee
                exact hhead t' ht'

/-- C8 counterexample: the Telegram history loader does not reverse the
newest-first batch — loading `[A@5, A@3]` yields a group whose events
are in reverse chronological order (timestamps `[5, 3]`), violating
the oldest-first invariant. -/
theorem claim_C8_counterexample :
    (Telegram.load_chat_history Cex.tst0 [Cex.tmsg 5 100 5, Cex.tmsg 3 100 3]).map
        (fun s => s.event_groups.map (fun g => g.events.map EChat.Event.timestamp))
      = some [[5, 3]] ∧
    ¬ EChat.eventsOldestFirst
      ⟨"100", "S100", none,
       [⟨"5", 5, .Message "m"⟩, ⟨"3", 3, .Message "m"⟩], false⟩ := by
  refine ⟨by decide, ?_⟩
  simp [EChat.eventsOldestFirst, List.chain'_cons]

/-- C8 amended: the Matrix aggregator reverses each delivered batch and
processes it oldest-first, so for every batch delivered newest-first
(message timestamps non-increasing in delivery order) every group it
adds, in either mode, has its events in chronological order, oldest
first, while the pre-existing groups pass through unchanged. -/
theorem claim_C8_amended (selfId : String) (room : Matrix.Room)
    (timeline : Matrix.Messages) (prepend : Bool)
    (gs : List EChat.EventGroup) (ps : List String)
    (hnewestFirst : List.Chain' (fun a b => b ≤ a)
      (Matrix.msgTimestamps timeline.chunk)) :
    ∀ g, g ∈ (Matrix.process_timeline_events selfId room timeline prepend gs ps).1 →
      g ∈ gs ∨ EChat.eventsOldestFirst g := by
  have hrev : List.Chain' (fun a b => a ≤ b)
      (Matrix.msgTimestamps timeline.chunk.reverse) := by
    rw [show Matrix.msgTimestamps timeline.chunk.reverse
        = (Matrix.msgTimestamps timeline.chunk).reverse from
        List.filterMap_reverse _ _]
    exact List.chain'_reverse.mpr hnewestFirst
  have hfold := Matrix.fold_groups_sorted selfId room timeline.chunk.reverse
    ⟨ps, none, []⟩ hrev
    (fun g hg => absurd hg (List.not_mem_nil g))
    (fun g hg => Option.noConfusion hg)
  have hnew : ∀ g, g ∈ ((Matrix.newGroupsOf selfId room timeline.chunk ps).newGroups
      ++ (Matrix.newGroupsOf selfId room timeline.chunk ps).current.toList) →
      EChat.eventsOldestFirst g := by
    intro g hg
    rcases List.mem_append.mp hg with h | h
    · exact hfold.1 g h
    · cases hcc : (Matrix.newGroupsOf selfId room timeline.chunk ps).current with
      | none => rw [hcc] at h; exact absurd h (List.not_mem_nil g)
      | some gX =>
        rw [hcc] at h
        have hgg : g = gX := by simpa using h
        subst hgg
        exact hfold.2 g hcc
  intro g hg
  cases prepend with
  | false =>
    rw [Matrix.process_append_eq] at hg
    rcases List.mem_append.mp hg with h | h
    · exact Or.inl h
    · exact Or.inr (hnew g h)
  | true =>
    rw [Matrix.process_prepend_eq] at hg
    rcases List.mem_append.mp hg with h | h
    · exact Or.inr (hnew g h)
    · exact Or.inl h

/-- Witness for C8 amended: a concrete newest-first batch `[A@2, A@1]`
processed on an empty timeline; the single resulting group is sorted
oldest-first. -/
theorem claim_C8_witness :
    (⟨"A", "A", none, [⟨"e1", 1, .Message "m"⟩, ⟨"e2", 2, .Message "m"⟩], false⟩
        : EChat.EventGroup) ∈ ([] : List EChat.EventGroup) ∨
    EChat.eventsOldestFirst
      ⟨"A", "A", none, [⟨"e1", 1, .Message "m"⟩, ⟨"e2", 2, .Message "m"⟩], false⟩ :=
  claim_C8_amended "@me" Cex.mroom
    ⟨[Cex.mev "e2" "A" 2, Cex.mev "e1" "A" 1], "", none⟩ false [] []
    (by simp [Matrix.msgTimestamps, Matrix.tsOfMsg, Cex.mev, List.chain'_cons])
    _ (by decide)
